import Mathlib

/-!
Verification of the stream-selection and download pipeline of `src/server.py`
(a YouTube downloader chat bot).  The Python functions are shallowly embedded
as pure Lean functions:

* pytubefix stream attributes `abr` ("128kbps") and `resolution` ("720p") are
  ordered by their integer value inside `order_by`; we model the numeric rank
  directly as `Nat` (`Option Nat` when the attribute may be absent).  A quality
  label inside one media kind is determined by that number, so label equality
  is `Nat` equality.
* `Stream.order_by(attr)` keeps only the streams that carry the attribute and
  sorts them by it; `.desc()` makes the order descending.  `orderByDesc` below
  models the composite (any descending sort is faithful — no claim depends on
  the order of key ties).
* the filesystem side of `download_youtube` is modelled as the list of files
  inside the temporary workspace plus a flag telling whether the workspace
  directory itself is still on disk; exceptions raised by collaborators
  (stream download, ffmpeg merge, pydub conversion) are oracle booleans in
  `DlEnv`, since the code only branches on raised / not raised.
* Python `re.match` / `re.search` on the two fixed URL regexes are embedded as
  deterministic matchers over `List Char`.  The regexes' optional groups never
  need backtracking: each alternative is discriminated by its first differing
  character (`'h'` for the scheme vs `'w'`/`'y'` for host material, `'b'` vs
  `'.'` at index 5 of the two host literals), so the greedy deterministic
  matcher below computes exactly the Python match result.
-/

/-! ### Descending sort, modelling `order_by(...).desc()` -/

def insertDesc {α : Type} (key : α → Nat) (a : α) : List α → List α
  | [] => [a]
  | b :: bs => if key b < key a then a :: b :: bs else b :: insertDesc key a bs

def orderByDesc {α : Type} (key : α → Nat) : List α → List α
  | [] => []
  | s :: rest => insertDesc key s (orderByDesc key rest)

/-! ### Raw provider streams and the catalog built by `get_video_info` -/

/-- One raw stream as returned by the metadata provider (pytubefix
`Stream`): opaque `itag`, media-kind flags, optional audio bitrate,
optional video resolution, container `subtype` (extension).  Metadata
fields of the video itself (title, author, ...) are plain pass-through in
the source and are omitted. -/
structure RawStream where
  itag : Nat
  isAudioOnly : Bool
  isVideoOnly : Bool
  isProgressive : Bool
  abr : Option Nat
  resolution : Option Nat
  subtype : String
deriving DecidableEq

inductive PType where
  | prog
  | adapt
deriving DecidableEq

/-- An entry of `audio_options` in `get_video_info` (the dict
`{'itag', 'format': 'audio', 'quality', 'extension'}`; the constant
`format` field is omitted). -/
structure AudioOption where
  itag : Nat
  quality : Nat
  extension : String
deriving DecidableEq

/-- An entry of `video_options` in `get_video_info` (the dict
`{'itag', 'format': 'video', 'quality', 'extension', 'ptype'}`). -/
structure VideoOption where
  itag : Nat
  quality : Nat
  extension : String
  ptype : PType
deriving DecidableEq

/-- The successful return value of `get_video_info`; title, thumbnail,
duration and author are provider pass-through and omitted. -/
structure VideoInfo where
  audio_options : List AudioOption
  video_options : List VideoOption
deriving DecidableEq

def ALLOWED_VIDEO_RESOLUTIONS : List Nat := [144, 240, 360, 480, 720, 1080]

/-- `stream.resolution in ALLOWED_VIDEO_RESOLUTIONS` (a `None` resolution is
in no set). -/
def allowedRes (s : RawStream) : Bool :=
  match s.resolution with
  | some r => ALLOWED_VIDEO_RESOLUTIONS.contains r
  | none => false

/-- The `for stream in audio_streams: if stream.abr: audio_options.append(...)`
loop. -/
def buildAudio : List RawStream → List AudioOption
  | [] => []
  | s :: rest =>
    if s.abr.isSome then
      ⟨s.itag, s.abr.getD 0, s.subtype⟩ :: buildAudio rest
    else buildAudio rest

/-- The progressive-stream loop: append an option for every stream whose
resolution is allow-listed. -/
def buildProg : List RawStream → List VideoOption
  | [] => []
  | s :: rest =>
    if allowedRes s then
      ⟨s.itag, s.resolution.getD 0, s.subtype, PType.prog⟩ :: buildProg rest
    else buildProg rest

/-- The adaptive-stream loop: `acc` is the `video_options` list accumulated so
far; a stream is skipped when some accumulated option already has its
resolution (`any(opt['quality'] == stream.resolution for opt in video_options)`). -/
def buildAdaptive : List RawStream → List VideoOption → List VideoOption
  | [], acc => acc
  | s :: rest, acc =>
    if allowedRes s then
      if acc.any (fun opt => opt.quality == s.resolution.getD 0) then
        buildAdaptive rest acc
      else
        buildAdaptive rest (acc ++ [⟨s.itag, s.resolution.getD 0, s.subtype, PType.adapt⟩])
    else buildAdaptive rest acc

/-- The additions that `buildAdaptive` makes beyond `acc` (same guards); used
only in proofs, related to `buildAdaptive` by `buildAdaptive_eq_append`. -/
def adaptExtra : List RawStream → List VideoOption → List VideoOption
  | [], _ => []
  | s :: rest, acc =>
    if allowedRes s then
      if acc.any (fun opt => opt.quality == s.resolution.getD 0) then
        adaptExtra rest acc
      else
        ⟨s.itag, s.resolution.getD 0, s.subtype, PType.adapt⟩ ::
          adaptExtra rest (acc ++ [⟨s.itag, s.resolution.getD 0, s.subtype, PType.adapt⟩])
    else adaptExtra rest acc

/-- The stream-list processing of `get_video_info` (lines 194-237 of
`src/server.py`): build the audio options from audio-only streams ordered by
bitrate, the video options from progressive then adaptive mp4 streams ordered
by resolution, and return `None` (modelled `none`) when both lists are empty,
else the capped catalog.  The surrounding `try/except` turns provider
exceptions into error dicts before this list processing runs; those outcomes
are modelled by the failure constructors of `GetInfoResult` for the retry
wrapper. -/
def get_video_info (streams : List RawStream) : Option VideoInfo :=
  let audioStreams :=
    orderByDesc (fun s => s.abr.getD 0)
      ((streams.filter (fun s => s.isAudioOnly)).filter (fun s => s.abr.isSome))
  let audio_options := buildAudio audioStreams
  let progStreams :=
    orderByDesc (fun s => s.resolution.getD 0)
      ((streams.filter (fun s => s.isProgressive && s.subtype == "mp4")).filter
        (fun s => s.resolution.isSome))
  let adaptStreams :=
    orderByDesc (fun s => s.resolution.getD 0)
      ((streams.filter (fun s => s.isVideoOnly && s.subtype == "mp4")).filter
        (fun s => s.resolution.isSome))
  let video_options := buildAdaptive adaptStreams (buildProg progStreams)
  if audio_options.isEmpty && video_options.isEmpty then none
  else some ⟨audio_options.take 3, video_options.take 10⟩

/-! ### The retry wrapper `get_video_info_with_retry` -/

/-- The three shapes a `get_video_info` call can produce in the source: a
success dict, an `{"error": msg}` dict, or `None`. -/
inductive GetInfoResult where
  | info (v : VideoInfo)
  | errorDict (msg : String)
  | noInfo
deriving DecidableEq

/-- Python `if info and "error" not in info`: truthy and without an error
key. -/
def isInfoSuccess : GetInfoResult → Bool
  | GetInfoResult.info _ => true
  | GetInfoResult.errorDict _ => false
  | GetInfoResult.noInfo => false

/-- The loop of `get_video_info_with_retry`.  `f k` is the result of the
`k`-th (0-based) call to `get_video_info`; `remaining` iterations are left,
`attempt` calls were already made, and `infoVar` is the current value of the
Python local `info` — `none` while it is still unbound.  Returns the value of
`info` at `return` together with the total number of calls made. -/
def retryLoop (f : Nat → GetInfoResult) :
    Nat → Nat → Option GetInfoResult → Option GetInfoResult × Nat
  | 0, attempt, infoVar => (infoVar, attempt)
  | n + 1, attempt, _ =>
    let r := f attempt
    if isInfoSuccess r then (some r, attempt + 1)
    else retryLoop f n (attempt + 1) (some r)

/-- `get_video_info_with_retry(url, retries)` (lines 174-181): the returned
`Option GetInfoResult` is the Python local `info` at the final `return info`
(`none` models the variable never having been assigned, i.e. the
`UnboundLocalError` case), and the `Nat` is the number of `get_video_info`
calls made. -/
def get_video_info_with_retry (f : Nat → GetInfoResult) (retries : Nat) :
    Option GetInfoResult × Nat :=
  retryLoop f retries 0 none

/-! ### The fetch-and-assemble pipeline `download_youtube` -/

/-- A path inside the temporary workspace, split as by `os.path.splitext`:
`base` is everything before the final extension, `ext` the extension with its
dot. -/
structure FPath where
  base : String
  ext : String
deriving DecidableEq

def strLower (s : String) : String := ⟨s.data.map Char.toLower⟩

/-- `os.remove` / non-existence of a path in the workspace file list. -/
def removeFile (fs : List FPath) (p : FPath) : List FPath :=
  fs.filter (fun q => q != p)

/-- `convert_to_mp3` (lines 159-171): when the extension (lower-cased) is not
`.mp3`, transcode to `<base>.mp3` and delete the source; when the conversion
raises (`conversionRaises`), swallow the exception and return the original
path unchanged.  Returns the resulting path and the new workspace file
list. -/
def convert_to_mp3 (fs : List FPath) (p : FPath) (conversionRaises : Bool) :
    FPath × List FPath :=
  if strLower p.ext != ".mp3" then
    if conversionRaises then (p, fs)
    else
      let mp3 : FPath := ⟨p.base, ".mp3"⟩
      (mp3, removeFile (fs ++ [mp3]) p)
  else (p, fs)

/-- Oracle for one `download_youtube` run: the request parameters plus the
behaviour of the external collaborators (whether stream lookups resolve and
whether the download / merge / conversion steps raise), and the paths the
downloads would produce. -/
structure DlEnv where
  format_type : String
  ptype : String
  streamFound : Bool
  audioStreamFound : Bool
  videoDlRaises : Bool
  audioDlRaises : Bool
  mergeRaises : Bool
  convertRaises : Bool
  videoFile : FPath
  audioFile : FPath
  fetchedFile : FPath
  outputFile : FPath
deriving DecidableEq

/-- Observable state when `download_youtube` returns: whether the temporary
directory still exists on disk, which files it contains, and the last status
written through `update_log_status` for this job's log row. -/
structure DlState where
  tempDirOnDisk : Bool
  files : List FPath
  logStatus : String
deriving DecidableEq

/-- `download_youtube` (lines 251-303), from `tempfile.mkdtemp()` onward.  The
first component models the returned `(file_path, temp_dir)` pair — `(none,
false)` is Python's `(None, None)`; a raised collaborator exception lands in
the `except` handlers of lines 294-303, which update the log and return
`(None, None)` without touching `temp_dir`. -/
def download_youtube (env : DlEnv) : (Option FPath × Bool) × DlState :=
  if env.format_type == "video" && env.ptype == "adapt" then
    if !env.streamFound then
      ((none, false), ⟨false, [], "failed"⟩)
    else if env.videoDlRaises then
      ((none, false), ⟨true, [], "failed"⟩)
    else
      let files1 := [env.videoFile]
      if !env.audioStreamFound then
        ((none, false), ⟨false, [], "failed"⟩)
      else if env.audioDlRaises then
        ((none, false), ⟨true, files1, "failed"⟩)
      else
        let files2 := files1 ++ [env.audioFile]
        if env.mergeRaises then
          ((none, false), ⟨true, files2, "failed"⟩)
        else
          let files3 := files2 ++ [env.outputFile]
          let files4 := removeFile (removeFile files3 env.videoFile) env.audioFile
          ((some env.outputFile, true), ⟨true, files4, "completed"⟩)
  else
    if !env.streamFound then
      ((none, false), ⟨false, [], "failed"⟩)
    else if env.videoDlRaises then
      ((none, false), ⟨true, [], "failed"⟩)
    else
      let files1 := [env.fetchedFile]
      if env.format_type == "audio" then
        let conv := convert_to_mp3 files1 env.fetchedFile env.convertRaises
        ((some conv.1, true), ⟨true, conv.2, "completed"⟩)
      else
        ((some env.fetchedFile, true), ⟨true, files1, "completed"⟩)

/-! ### URL validation and id extraction -/

def idChar (c : Char) : Bool := c.isAlpha || c.isDigit || c == '_' || c == '-'

def schemeHttp : List Char := ['h', 't', 't', 'p', ':', '/', '/']

def schemeHttps : List Char := ['h', 't', 't', 'p', 's', ':', '/', '/']

def wwwChars : List Char := ['w', 'w', 'w', '.']

def host1Chars : List Char :=
  ['y', 'o', 'u', 't', 'u', 'b', 'e', '.', 'c', 'o', 'm', '/', 'w', 'a', 't',
   'c', 'h', '?', 'v', '=']

def host2Chars : List Char := ['y', 'o', 'u', 't', 'u', '.', 'b', 'e', '/']

/-- Strip `pre` from the front of `s`, or fail. -/
def dropPre : List Char → List Char → Option (List Char)
  | [], s => some s
  | _ :: _, [] => none
  | p :: ps, c :: cs => if p == c then dropPre ps cs else none

/-- The optional group `(https?://)?`, greedy (`https` before `http`). -/
def stripScheme (s : List Char) : List Char :=
  match dropPre schemeHttps s with
  | some r => r
  | none =>
    match dropPre schemeHttp s with
    | some r => r
    | none => s

/-- The optional group `(www\.)?`. -/
def stripWww (s : List Char) : List Char :=
  match dropPre wwwChars s with
  | some r => r
  | none => s

/-- The alternation `(youtube\.com/watch\?v=|youtu\.be/)`. -/
def matchHost (s : List Char) : Option (List Char) :=
  match dropPre host1Chars s with
  | some r => some r
  | none => dropPre host2Chars s

/-- `re.match` of the validation regex
`(https?://)?(www\.)?(youtube\.com/watch\?v=|youtu\.be/)[a-zA-Z0-9_-]+`:
anchored at the start only; succeeds as soon as one id character follows the
host part. -/
def isValidChars (s : List Char) : Bool :=
  match matchHost (stripWww (stripScheme s)) with
  | some (c :: _) => idChar c
  | _ => false

/-- `is_valid_youtube_url` (lines 137-139). -/
def is_valid_youtube_url (url : String) : Bool :=
  isValidChars url.data

/-- The capture group `([a-zA-Z0-9_-]+)`: at least one id character, then the
maximal run. -/
def takeId : List Char → Option (List Char)
  | [] => none
  | c :: cs => if idChar c then some (c :: cs.takeWhile idChar) else none

/-- `pattern1` of `extract_video_id` applied at one position. -/
def matchP1At (s : List Char) : Option (List Char) :=
  match dropPre host1Chars (stripWww (stripScheme s)) with
  | some r => takeId r
  | none => none

/-- `pattern2` of `extract_video_id` applied at one position. -/
def matchP2At (s : List Char) : Option (List Char) :=
  match dropPre host2Chars (stripWww (stripScheme s)) with
  | some r => takeId r
  | none => none

/-- `re.search` with `pattern1`: try every position left to right. -/
def searchP1 : List Char → Option (List Char)
  | [] => none
  | c :: cs =>
    match matchP1At (c :: cs) with
    | some g => some g
    | none => searchP1 cs

/-- `re.search` with `pattern2`. -/
def searchP2 : List Char → Option (List Char)
  | [] => none
  | c :: cs =>
    match matchP2At (c :: cs) with
    | some g => some g
    | none => searchP2 cs

/-- `extract_video_id` (lines 141-150): search `pattern1`, then `pattern2`,
returning the captured id, else `None`. -/
def extract_video_id (url : String) : Option String :=
  match searchP1 url.data with
  | some g => some ⟨g⟩
  | none =>
    match searchP2 url.data with
    | some g => some ⟨g⟩
    | none => none

/-- Modelled from the spec (§4.1): a string of one of "the platform's two
canonical host patterns" — optional scheme, optional `www.`, one of the two
host literals, then a non-empty id drawn from the id character class and
nothing after it.  Used only to compare the code's validator against the
spec's words. -/
def specCanonicalYoutubeUrl (s : List Char) : Bool :=
  [([] : List Char), schemeHttp, schemeHttps].any fun sch =>
    [([] : List Char), wwwChars].any fun ww =>
      [host1Chars, host2Chars].any fun h =>
        match dropPre (sch ++ ww ++ h) s with
        | some id => !id.isEmpty && id.all idChar
        | none => false

/-! ### Usage store statistics `get_user_stats` -/

/-- A row of the `users` table (fields not read by `get_user_stats`
omitted). -/
structure UserRow where
  user_id : Nat
  username : String
deriving DecidableEq

/-- A row of the `usage_logs` table; `timestamp` is modelled as `Nat` (the
stored text timestamps order like their values). -/
structure LogRow where
  user_id : Nat
  action : String
  video_url : String
  quality : String
  timestamp : Nat
  status : String
  error_message : String
deriving DecidableEq

structure Stats where
  total_users : Nat
  total_downloads : Nat
  top_users : List (String × Nat)
  recent_errors : List LogRow
deriving DecidableEq

/-- `get_user_stats` (lines 104-135).  `users` and `logs` are the two tables:
`COUNT(DISTINCT user_id)`, `COUNT(*) ... WHERE action = 'download'`, the
top-5 `GROUP BY users.user_id` of completed downloads ordered by count
descending (user ids are unique — `user_id` is the table's primary key), and
the five most recent rows with a non-empty error message. -/
def get_user_stats (users : List UserRow) (logs : List LogRow) : Stats :=
  let total_users := ((users.map (fun u => u.user_id)).dedup).length
  let total_downloads := logs.countP (fun r => r.action == "download")
  let top_users :=
    (orderByDesc (fun p => p.2)
      (users.filterMap (fun u =>
        let c := logs.countP (fun r =>
          r.user_id == u.user_id && r.action == "download" && r.status == "completed")
        if c > 0 then some (u.username, c) else none))).take 5
  let recent_errors :=
    (orderByDesc (fun r => r.timestamp)
      (logs.filter (fun r => r.error_message != ""))).take 5
  ⟨total_users, total_downloads, top_users, recent_errors⟩

/-! ### Concrete inputs used by counterexamples and witnesses -/

/-- Two progressive mp4 streams at the same resolution (provider raw list). -/
def c2cexStreams : List RawStream :=
  [⟨1, false, false, true, none, some 720, "mp4"⟩,
   ⟨2, false, false, true, none, some 720, "mp4"⟩]

/-- A progressive 720p stream and an adaptive (video-only) 1080p stream. -/
def c3cexStreams : List RawStream :=
  [⟨1, false, false, true, none, some 720, "mp4"⟩,
   ⟨2, false, true, false, none, some 1080, "mp4"⟩]

def c3cexVideo : List VideoOption :=
  [⟨1, 720, "mp4", PType.prog⟩, ⟨2, 1080, "mp4", PType.adapt⟩]

/-- Witness input for the amended C2: a progressive 480p and an adaptive
1080p stream. -/
def w2streams : List RawStream :=
  [⟨3, false, false, true, none, some 480, "mp4"⟩,
   ⟨4, false, true, false, none, some 1080, "mp4"⟩]

def w2info : VideoInfo :=
  ⟨[], [⟨3, 480, "mp4", PType.prog⟩, ⟨4, 1080, "mp4", PType.adapt⟩]⟩

def w2opt : VideoOption := ⟨4, 1080, "mp4", PType.adapt⟩

/-- Witness input for the amended C3: one audio stream and one progressive
video stream. -/
def w3streams : List RawStream :=
  [⟨10, true, false, false, some 128, none, "m4a"⟩,
   ⟨11, false, false, true, none, some 720, "mp4"⟩]

def w3info : VideoInfo :=
  ⟨[⟨10, 128, "m4a"⟩], [⟨11, 720, "mp4", PType.prog⟩]⟩

/-- Provider behaviour for the C4 witness: the first two calls fail, the
third succeeds. -/
def wf4 : Nat → GetInfoResult :=
  fun k => if k = 2 then GetInfoResult.info ⟨[], []⟩ else GetInfoResult.errorDict "e"

/-- Provider behaviour that always fails, for the all-fail half of C4. -/
def wf4fail : Nat → GetInfoResult :=
  fun _ => GetInfoResult.noInfo

/-- The C1 failing input: an adaptive video download where both streams
resolve and download but the ffmpeg merge raises
(`subprocess.run(..., check=True)` with a nonzero exit). -/
def c1bugEnv : DlEnv :=
  { format_type := "video", ptype := "adapt", streamFound := true,
    audioStreamFound := true, videoDlRaises := false, audioDlRaises := false,
    mergeRaises := true, convertRaises := false,
    videoFile := ⟨"video_clip", ".mp4"⟩, audioFile := ⟨"audio_clip", ".m4a"⟩,
    fetchedFile := ⟨"clip", ".mp4"⟩, outputFile := ⟨"title_abc", ".mp4"⟩ }

/-- Witness input for C6: a progressive audio download whose fetched
container is m4a. -/
def c6wEnv : DlEnv :=
  { format_type := "audio", ptype := "prog", streamFound := true,
    audioStreamFound := true, videoDlRaises := false, audioDlRaises := false,
    mergeRaises := false, convertRaises := true,
    videoFile := ⟨"video_clip", ".mp4"⟩, audioFile := ⟨"audio_clip", ".m4a"⟩,
    fetchedFile := ⟨"song", ".m4a"⟩, outputFile := ⟨"title_abc", ".mp4"⟩ }

/-- Witness input for C7: a fully successful adaptive video download. -/
def c7wEnv : DlEnv :=
  { format_type := "video", ptype := "adapt", streamFound := true,
    audioStreamFound := true, videoDlRaises := false, audioDlRaises := false,
    mergeRaises := false, convertRaises := false,
    videoFile := ⟨"video_clip", ".mp4"⟩, audioFile := ⟨"audio_clip", ".m4a"⟩,
    fetchedFile := ⟨"clip", ".mp4"⟩, outputFile := ⟨"title_abc", ".mp4"⟩ }

/-- The C8 counterexample log table: one download row that failed. -/
def c8cexLogs : List LogRow :=
  [⟨7, "download", "http://u", "", 0, "failed", "boom"⟩]

/-! ### Lemmas about the descending sort -/

theorem mem_insertDesc {α : Type} (key : α → Nat) (a x : α) (l : List α) :
    x ∈ insertDesc key a l ↔ x = a ∨ x ∈ l := by
  induction l with
  | nil => simp [insertDesc]
  | cons b bs ih =>
    by_cases h : key b < key a
    · simp [insertDesc, h]
    · simp [insertDesc, h, ih]
      tauto

theorem pairwise_insertDesc {α : Type} (key : α → Nat) (a : α) (l : List α)
    (h : l.Pairwise (fun x y => key y ≤ key x)) :
    (insertDesc key a l).Pairwise (fun x y => key y ≤ key x) := by
  induction l with
  | nil => simp [insertDesc]
  | cons b bs ih =>
    rw [List.pairwise_cons] at h
    obtain ⟨hb, hbs⟩ := h
    by_cases hlt : key b < key a
    · rw [insertDesc, if_pos hlt, List.pairwise_cons]
      refine ⟨?_, ?_⟩
      · intro y hy
        rcases List.mem_cons.mp hy with rfl | hy
        · exact Nat.le_of_lt hlt
        · exact Nat.le_trans (hb y hy) (Nat.le_of_lt hlt)
      · rw [List.pairwise_cons]
        exact ⟨hb, hbs⟩
    · rw [insertDesc, if_neg hlt, List.pairwise_cons]
      refine ⟨?_, ih hbs⟩
      intro y hy
      rcases (mem_insertDesc key a y bs).mp hy with rfl | hy
      · exact Nat.le_of_not_lt hlt
      · exact hb y hy

theorem orderByDesc_pairwise {α : Type} (key : α → Nat) (l : List α) :
    (orderByDesc key l).Pairwise (fun x y => key y ≤ key x) := by
  induction l with
  | nil => simp [orderByDesc]
  | cons s rest ih => exact pairwise_insertDesc key s _ ih

theorem orderByDesc_mem {α : Type} (key : α → Nat) (x : α) (l : List α) :
    x ∈ orderByDesc key l ↔ x ∈ l := by
  induction l with
  | nil => simp [orderByDesc]
  | cons s rest ih =>
    rw [orderByDesc, mem_insertDesc, ih, List.mem_cons]

/-! ### Lemmas about the catalog builders -/

theorem buildAudio_mem (l : List RawStream) (o : AudioOption) (h : o ∈ buildAudio l) :
    ∃ s ∈ l, s.abr.isSome = true ∧ o = ⟨s.itag, s.abr.getD 0, s.subtype⟩ := by
  induction l with
  | nil => simp [buildAudio] at h
  | cons s rest ih =>
    by_cases hs : s.abr.isSome
    · rw [buildAudio, if_pos hs] at h
      rcases List.mem_cons.mp h with rfl | h
      · exact ⟨s, List.mem_cons_self s rest, hs, rfl⟩
      · obtain ⟨s', hmem, h1, h2⟩ := ih h
        exact ⟨s', List.mem_cons_of_mem s hmem, h1, h2⟩
    · rw [buildAudio, if_neg hs] at h
      obtain ⟨s', hmem, h1, h2⟩ := ih h
      exact ⟨s', List.mem_cons_of_mem s hmem, h1, h2⟩

theorem buildAudio_sorted (l : List RawStream)
    (h : l.Pairwise (fun x y => y.abr.getD 0 ≤ x.abr.getD 0)) :
    (buildAudio l).Pairwise (fun a b => b.quality ≤ a.quality) := by
  induction l with
  | nil => simp [buildAudio]
  | cons s rest ih =>
    rw [List.pairwise_cons] at h
    obtain ⟨hs, hrest⟩ := h
    by_cases habr : s.abr.isSome
    · rw [buildAudio, if_pos habr, List.pairwise_cons]
      refine ⟨?_, ih hrest⟩
      intro o ho
      obtain ⟨s', hmem, _, rfl⟩ := buildAudio_mem rest o ho
      exact hs s' hmem
    · rw [buildAudio, if_neg habr]
      exact ih hrest

theorem buildProg_mem (l : List RawStream) (o : VideoOption) (h : o ∈ buildProg l) :
    ∃ s ∈ l, allowedRes s = true ∧ o = ⟨s.itag, s.resolution.getD 0, s.subtype, PType.prog⟩ := by
  induction l with
  | nil => simp [buildProg] at h
  | cons s rest ih =>
    by_cases hs : allowedRes s
    · rw [buildProg, if_pos hs] at h
      rcases List.mem_cons.mp h with rfl | h
      · exact ⟨s, List.mem_cons_self s rest, hs, rfl⟩
      · obtain ⟨s', hmem, h1, h2⟩ := ih h
        exact ⟨s', List.mem_cons_of_mem s hmem, h1, h2⟩
    · rw [buildProg, if_neg hs] at h
      obtain ⟨s', hmem, h1, h2⟩ := ih h
      exact ⟨s', List.mem_cons_of_mem s hmem, h1, h2⟩

theorem buildProg_ptype (l : List RawStream) (o : VideoOption) (h : o ∈ buildProg l) :
    o.ptype = PType.prog := by
  obtain ⟨s, _, _, rfl⟩ := buildProg_mem l o h
  rfl

theorem buildProg_sorted (l : List RawStream)
    (h : l.Pairwise (fun x y => y.resolution.getD 0 ≤ x.resolution.getD 0)) :
    (buildProg l).Pairwise (fun a b => b.quality ≤ a.quality) := by
  induction l with
  | nil => simp [buildProg]
  | cons s rest ih =>
    rw [List.pairwise_cons] at h
    obtain ⟨hs, hrest⟩ := h
    by_cases hres : allowedRes s
    · rw [buildProg, if_pos hres, List.pairwise_cons]
      refine ⟨?_, ih hrest⟩
      intro o ho
      obtain ⟨s', hmem, _, rfl⟩ := buildProg_mem rest o ho
      exact hs s' hmem
    · rw [buildProg, if_neg hres]
      exact ih hrest

theorem buildAdaptive_eq_append (l : List RawStream) (acc : List VideoOption) :
    buildAdaptive l acc = acc ++ adaptExtra l acc := by
  induction l generalizing acc with
  | nil => simp [buildAdaptive, adaptExtra]
  | cons s rest ih =>
    by_cases hs : allowedRes s
    · by_cases hdup : acc.any (fun opt => opt.quality == s.resolution.getD 0)
      · rw [buildAdaptive, adaptExtra, if_pos hs, if_pos hs, if_pos hdup, if_pos hdup]
        exact ih acc
      · rw [buildAdaptive, adaptExtra, if_pos hs, if_pos hs, if_neg hdup, if_neg hdup, ih]
        simp
    · rw [buildAdaptive, adaptExtra, if_neg hs, if_neg hs]
      exact ih acc

theorem adaptExtra_mem (l : List RawStream) (acc : List VideoOption) (o : VideoOption)
    (h : o ∈ adaptExtra l acc) :
    o.ptype = PType.adapt ∧ ∃ s ∈ l, allowedRes s = true ∧ o.quality = s.resolution.getD 0 := by
  induction l generalizing acc with
  | nil => simp [adaptExtra] at h
  | cons s rest ih =>
    by_cases hs : allowedRes s
    · by_cases hdup : acc.any (fun opt => opt.quality == s.resolution.getD 0)
      · rw [adaptExtra, if_pos hs, if_pos hdup] at h
        obtain ⟨h1, s', hmem, h2⟩ := ih acc h
        exact ⟨h1, s', List.mem_cons_of_mem s hmem, h2⟩
      · rw [adaptExtra, if_pos hs, if_neg hdup] at h
        rcases List.mem_cons.mp h with rfl | h
        · exact ⟨rfl, s, List.mem_cons_self s rest, hs, rfl⟩
        · obtain ⟨h1, s', hmem, h2⟩ := ih _ h
          exact ⟨h1, s', List.mem_cons_of_mem s hmem, h2⟩
    · rw [adaptExtra, if_neg hs] at h
      obtain ⟨h1, s', hmem, h2⟩ := ih acc h
      exact ⟨h1, s', List.mem_cons_of_mem s hmem, h2⟩

theorem adaptExtra_sorted (l : List RawStream) (acc : List VideoOption)
    (h : l.Pairwise (fun x y => y.resolution.getD 0 ≤ x.resolution.getD 0)) :
    (adaptExtra l acc).Pairwise (fun a b => b.quality ≤ a.quality) := by
  induction l generalizing acc with
  | nil => simp [adaptExtra]
  | cons s rest ih =>
    rw [List.pairwise_cons] at h
    obtain ⟨hs, hrest⟩ := h
    by_cases hres : allowedRes s
    · by_cases hdup : acc.any (fun opt => opt.quality == s.resolution.getD 0)
      · rw [adaptExtra, if_pos hres, if_pos hdup]
        exact ih _ hrest
      · rw [adaptExtra, if_pos hres, if_neg hdup, List.pairwise_cons]
        refine ⟨?_, ih _ hrest⟩
        intro o ho
        obtain ⟨_, s', hmem, _, h2⟩ := adaptExtra_mem rest _ o ho
        rw [h2]
        exact hs s' hmem
    · rw [adaptExtra, if_neg hres]
      exact ih acc hrest

theorem buildAdaptive_uniq (l : List RawStream) (acc : List VideoOption)
    (H : ∀ x ∈ acc, x.ptype = PType.adapt →
      acc.countP (fun y => y.quality == x.quality) = 1) :
    ∀ o ∈ buildAdaptive l acc, o.ptype = PType.adapt →
      (buildAdaptive l acc).countP (fun y => y.quality == o.quality) = 1 := by
  induction l generalizing acc with
  | nil =>
    intro o ho hadapt
    rw [buildAdaptive] at ho ⊢
    exact H o ho hadapt
  | cons s rest ih =>
    by_cases hs : allowedRes s
    · by_cases hdup : acc.any (fun opt => opt.quality == s.resolution.getD 0)
      · intro o ho hadapt
        rw [buildAdaptive, if_pos hs, if_pos hdup] at ho ⊢
        exact ih acc H o ho hadapt
      · intro o ho hadapt
        rw [buildAdaptive, if_pos hs, if_neg hdup] at ho ⊢
        refine ih _ ?_ o ho hadapt
        intro x hx hxadapt
        have hfresh : ∀ y ∈ acc, (y.quality == s.resolution.getD 0) = false := by
          intro y hy
          by_contra hne
          exact hdup (List.any_eq_true.mpr ⟨y, hy, by
            cases hb : (y.quality == s.resolution.getD 0) with
            | true => rfl
            | false => exact absurd hb hne⟩)
        rcases List.mem_append.mp hx with hx | hx
        · rw [List.countP_append, H x hx hxadapt]
          have : (VideoOption.quality
              ⟨s.itag, s.resolution.getD 0, s.subtype, PType.adapt⟩ == x.quality) = false := by
            have hy := hfresh x hx
            simp only [beq_eq_false_iff_ne] at hy ⊢
            exact fun e => hy e.symm
          simp [List.countP_cons, this]
        · rw [List.mem_singleton.mp hx]
          rw [List.countP_append]
          have hzero : acc.countP (fun y =>
              y.quality == VideoOption.quality
                ⟨s.itag, s.resolution.getD 0, s.subtype, PType.adapt⟩) = 0 := by
            rw [List.countP_eq_zero]
            intro y hy
            simp only [Bool.not_eq_true]
            exact hfresh y hy
          rw [hzero]
          simp [List.countP_cons]
    · intro o ho hadapt
      rw [buildAdaptive, if_neg hs] at ho ⊢
      exact ih acc H o ho hadapt

/-! ### Claims -/

/-- C2 counterexample: with two progressive mp4 streams at 720p the built
video option list carries the quality label 720 twice, so the claim's
"no two entries with the same quality label" fails as stated. -/
theorem claim_C2_cex :
    get_video_info c2cexStreams =
      some ⟨[], [⟨2, 720, "mp4", PType.prog⟩, ⟨1, 720, "mp4", PType.prog⟩]⟩ ∧
    ¬ ([⟨2, 720, "mp4", PType.prog⟩, ⟨1, 720, "mp4", (PType.prog : PType)⟩] :
        List VideoOption).Pairwise (fun a b => a.quality ≠ b.quality) := by
  constructor
  · decide
  · decide

/-- C2 amended: every adaptive entry of the built video option list has a
quality label that appears exactly once in the whole list (adaptive
duplicates of any accumulated entry are skipped, so progressive options are
preferred); duplicate progressive entries are not deduplicated. -/
theorem claim_C2_amended (streams : List RawStream) (info : VideoInfo) (o : VideoOption)
    (h : get_video_info streams = some info) (ho : o ∈ info.video_options)
    (hadapt : o.ptype = PType.adapt) :
    info.video_options.countP (fun x => x.quality == o.quality) = 1 := by
  simp only [get_video_info] at h
  split at h
  · exact absurd h (by simp)
  · injection h with h
    subst h
    simp only at ho ⊢
    generalize hP : buildProg (orderByDesc (fun s => s.resolution.getD 0)
      ((streams.filter (fun s => s.isProgressive && s.subtype == "mp4")).filter
        (fun s => s.resolution.isSome))) = P at ho ⊢
    generalize hD : orderByDesc (fun s => s.resolution.getD 0)
      ((streams.filter (fun s => s.isVideoOnly && s.subtype == "mp4")).filter
        (fun s => s.resolution.isSome)) = D at ho ⊢
    have hH : ∀ x ∈ P, x.ptype = PType.adapt →
        P.countP (fun y => y.quality == x.quality) = 1 := by
      intro x hx hxa
      rw [← hP] at hx
      have := buildProg_ptype _ x hx
      rw [hxa] at this
      exact absurd this (by simp)
    have huniq := buildAdaptive_uniq D P hH
    have hoV : o ∈ buildAdaptive D P := (List.take_sublist 10 _).subset ho
    have h1 : ((buildAdaptive D P).take 10).countP (fun y => y.quality == o.quality) ≤ 1 := by
      rw [← huniq o hoV hadapt]
      exact List.Sublist.countP_le _ (List.take_sublist 10 _)
    have h2 : 0 < ((buildAdaptive D P).take 10).countP (fun y => y.quality == o.quality) :=
      List.countP_pos_iff.mpr ⟨o, ho, by simp⟩
    omega

/-- C2 amended witness at a concrete raw stream list. -/
theorem claim_C2_amended_witness :
    get_video_info w2streams = some w2info ∧ w2opt ∈ w2info.video_options ∧
    w2opt.ptype = PType.adapt ∧
    w2info.video_options.countP (fun x => x.quality == w2opt.quality) = 1 :=
  ⟨by decide, by decide, by decide,
    claim_C2_amended w2streams w2info w2opt (by decide) (by decide) (by decide)⟩

/-- C3 counterexample: an adaptive 1080p option is appended after the
progressive 720p one, so the video list is not non-increasing over its full
length. -/
theorem claim_C3_cex :
    get_video_info c3cexStreams = some ⟨[], c3cexVideo⟩ ∧
    ¬ c3cexVideo.Pairwise (fun a b => b.quality ≤ a.quality) :=
  ⟨by decide, by decide⟩

/-- C3 amended: the catalog's audio list has length at most 3 and is
non-increasing by bitrate; the video list has length at most 10 and is the
10-cap of a progressive segment followed by an adaptive segment, each
segment non-increasing by resolution (the concatenation need not be). -/
theorem claim_C3_amended (streams : List RawStream) (info : VideoInfo)
    (h : get_video_info streams = some info) :
    info.audio_options.length ≤ 3 ∧ info.video_options.length ≤ 10 ∧
    info.audio_options.Pairwise (fun a b => b.quality ≤ a.quality) ∧
    ∃ p q : List VideoOption, info.video_options = (p ++ q).take 10 ∧
      (∀ o ∈ p, o.ptype = PType.prog) ∧ (∀ o ∈ q, o.ptype = PType.adapt) ∧
      p.Pairwise (fun a b => b.quality ≤ a.quality) ∧
      q.Pairwise (fun a b => b.quality ≤ a.quality) := by
  simp only [get_video_info] at h
  split at h
  · exact absurd h (by simp)
  · injection h with h
    subst h
    simp only
    refine ⟨List.length_take_le _ _, List.length_take_le _ _, ?_, ?_⟩
    · exact List.Pairwise.sublist (List.take_sublist 3 _)
        (buildAudio_sorted _ (orderByDesc_pairwise _ _))
    · set D := orderByDesc (fun s => s.resolution.getD 0)
        ((streams.filter (fun s => s.isVideoOnly && s.subtype == "mp4")).filter
          (fun s => s.resolution.isSome)) with hD
      set P := buildProg (orderByDesc (fun s => s.resolution.getD 0)
        ((streams.filter (fun s => s.isProgressive && s.subtype == "mp4")).filter
          (fun s => s.resolution.isSome))) with hP
      refine ⟨P, adaptExtra D P, ?_, ?_, ?_, ?_, ?_⟩
      · rw [buildAdaptive_eq_append]
      · intro o ho
        rw [hP] at ho
        exact buildProg_ptype _ o ho
      · intro o ho
        exact (adaptExtra_mem D P o ho).1
      · rw [hP]
        exact buildProg_sorted _ (orderByDesc_pairwise _ _)
      · refine adaptExtra_sorted D P ?_
        rw [hD]
        exact orderByDesc_pairwise _ _

/-- C3 amended witness at a concrete raw stream list. -/
theorem claim_C3_amended_witness :
    get_video_info w3streams = some w3info ∧
    (w3info.audio_options.length ≤ 3 ∧ w3info.video_options.length ≤ 10 ∧
     w3info.audio_options.Pairwise (fun a b => b.quality ≤ a.quality) ∧
     ∃ p q : List VideoOption, w3info.video_options = (p ++ q).take 10 ∧
       (∀ o ∈ p, o.ptype = PType.prog) ∧ (∀ o ∈ q, o.ptype = PType.adapt) ∧
       p.Pairwise (fun a b => b.quality ≤ a.quality) ∧
       q.Pairwise (fun a b => b.quality ≤ a.quality)) :=
  ⟨by decide, claim_C3_amended w3streams w3info (by decide)⟩

/-- C4: with `retries = 3`, a provider failing twice then succeeding yields
the success after exactly 3 calls, and a provider failing on all three
calls yields exactly 3 calls and the third (last) failure as the returned
value — no synthesized error. -/
theorem claim_C4_retry :
    (∀ f : Nat → GetInfoResult,
      isInfoSuccess (f 0) = false → isInfoSuccess (f 1) = false →
      isInfoSuccess (f 2) = true →
      get_video_info_with_retry f 3 = (some (f 2), 3)) ∧
    (∀ f : Nat → GetInfoResult,
      isInfoSuccess (f 0) = false → isInfoSuccess (f 1) = false →
      isInfoSuccess (f 2) = false →
      get_video_info_with_retry f 3 = (some (f 2), 3)) := by
  constructor <;>
    · intro f h0 h1 h2
      simp [get_video_info_with_retry, retryLoop, h0, h1, h2]

/-- C4 witness: both halves applied to concrete providers. -/
theorem claim_C4_retry_witness :
    (isInfoSuccess (wf4 0) = false ∧ isInfoSuccess (wf4 1) = false ∧
     isInfoSuccess (wf4 2) = true ∧
     get_video_info_with_retry wf4 3 = (some (wf4 2), 3)) ∧
    (isInfoSuccess (wf4fail 0) = false ∧ isInfoSuccess (wf4fail 1) = false ∧
     isInfoSuccess (wf4fail 2) = false ∧
     get_video_info_with_retry wf4fail 3 = (some (wf4fail 2), 3)) :=
  ⟨⟨by decide, by decide, by decide,
      claim_C4_retry.1 wf4 (by decide) (by decide) (by decide)⟩,
   ⟨by decide, by decide, by decide,
      claim_C4_retry.2 wf4fail (by decide) (by decide) (by decide)⟩⟩

/-- C5: at `retries = 0` the loop body never runs, no value is ever
assigned to the Python local `info`, and the final `return info` reads an
unset variable (modelled by the `none` first component; at runtime this is
an `UnboundLocalError`), contradicting the claim that the result is always
well-defined. -/
theorem claim_C5_bug_retries_zero :
    get_video_info_with_retry wf4fail 0 = (none, 0) := rfl

/-- C1: at the failing input (an adaptive download whose ffmpeg merge
raises) `download_youtube` returns the failure pair `(None, None)` and marks
the log failed, yet leaves the temporary workspace directory on disk with
the two fetched source files — the claim (and spec) require every internal
failure path to remove the workspace. -/
theorem claim_C1_bug_merge_failure_leaks_workspace :
    (download_youtube c1bugEnv).1 = (none, false) ∧
    (download_youtube c1bugEnv).2 =
      ⟨true, [⟨"video_clip", ".mp4"⟩, ⟨"audio_clip", ".m4a"⟩], "failed"⟩ :=
  ⟨by decide, by decide⟩

/-- C6: in a progressive audio fulfillment whose fetched container is not
already mp3, a raised transcoding step is swallowed and the original fetched
file is returned with the job logged completed; a successful transcode
deletes the pre-transcode file and returns the mp3. -/
theorem claim_C6_audio_transcode_leniency (env : DlEnv)
    (hfmt : env.format_type = "audio")
    (hfound : env.streamFound = true)
    (hdl : env.videoDlRaises = false)
    (hext : strLower env.fetchedFile.ext ≠ ".mp3") :
    (env.convertRaises = true →
      download_youtube env =
        ((some env.fetchedFile, true), ⟨true, [env.fetchedFile], "completed"⟩)) ∧
    (env.convertRaises = false →
      download_youtube env =
        ((some ⟨env.fetchedFile.base, ".mp3"⟩, true),
         ⟨true, [⟨env.fetchedFile.base, ".mp3"⟩], "completed"⟩)) := by
  have hmp3 : strLower ".mp3" = ".mp3" := by decide
  have hne : (⟨env.fetchedFile.base, ".mp3"⟩ : FPath) ≠ env.fetchedFile := by
    intro e
    apply hext
    have hx : (".mp3" : String) = env.fetchedFile.ext := congrArg FPath.ext e
    rw [← hx]
    exact hmp3
  constructor
  · intro hcr
    simp [download_youtube, convert_to_mp3, hfmt, hfound, hdl, hcr,
      bne_iff_ne.mpr hext]
  · intro hcr
    simp [download_youtube, convert_to_mp3, removeFile, hfmt, hfound, hdl, hcr,
      bne_iff_ne.mpr hext, bne_iff_ne.mpr hne]

/-- C6 witness: a concrete m4a audio fetch whose transcode raises returns
the original file, with the job completed. -/
theorem claim_C6_witness :
    (c6wEnv.format_type = "audio" ∧ c6wEnv.streamFound = true ∧
     c6wEnv.videoDlRaises = false ∧ strLower c6wEnv.fetchedFile.ext ≠ ".mp3" ∧
     c6wEnv.convertRaises = true) ∧
    download_youtube c6wEnv =
      ((some c6wEnv.fetchedFile, true), ⟨true, [c6wEnv.fetchedFile], "completed"⟩) :=
  ⟨⟨rfl, rfl, rfl, by decide, rfl⟩,
   (claim_C6_audio_transcode_leniency c6wEnv rfl rfl rfl (by decide)).1 rfl⟩

/-- C7: a fully successful adaptive fulfillment deletes both fetched source
files after the merge; only the merged output remains in the (still open)
workspace, and the job is logged completed. -/
theorem claim_C7_adaptive_success_cleanup (env : DlEnv)
    (hfmt : env.format_type = "video") (hpt : env.ptype = "adapt")
    (hsf : env.streamFound = true) (hvdl : env.videoDlRaises = false)
    (haf : env.audioStreamFound = true) (hadl : env.audioDlRaises = false)
    (hm : env.mergeRaises = false)
    (h1 : env.videoFile ≠ env.audioFile) (h2 : env.videoFile ≠ env.outputFile)
    (h3 : env.audioFile ≠ env.outputFile) :
    download_youtube env =
      ((some env.outputFile, true), ⟨true, [env.outputFile], "completed"⟩) := by
  simp [download_youtube, removeFile, hfmt, hpt, hsf, hvdl, haf, hadl, hm,
    bne_iff_ne.mpr (Ne.symm h1), bne_iff_ne.mpr (Ne.symm h2),
    bne_iff_ne.mpr (Ne.symm h3)]

/-- C7 witness at a concrete successful adaptive download. -/
theorem claim_C7_witness :
    (c7wEnv.format_type = "video" ∧ c7wEnv.ptype = "adapt" ∧
     c7wEnv.streamFound = true ∧ c7wEnv.mergeRaises = false) ∧
    download_youtube c7wEnv =
      ((some c7wEnv.outputFile, true), ⟨true, [c7wEnv.outputFile], "completed"⟩) :=
  ⟨⟨rfl, rfl, rfl, rfl⟩,
   claim_C7_adaptive_success_cleanup c7wEnv rfl rfl rfl rfl rfl rfl rfl
     (by decide) (by decide) (by decide)⟩

/-- C8 counterexample: a single `download` log row with status `failed`
makes the reported total 1, while the completed-download count is 0 — the
total counts all download rows regardless of status. -/
theorem claim_C8_cex :
    (get_user_stats [] c8cexLogs).total_downloads = 1 ∧
    c8cexLogs.countP (fun r => r.action == "download" && r.status == "completed") = 0 :=
  ⟨by decide, by decide⟩

/-- C8 amended: the total-downloads figure counts the rows whose action is
`download` of any status; the top-users list has at most 5 entries, is
ordered by descending count, and each entry is a user of the users table
paired with that user's positive completed-download count. -/
theorem claim_C8_amended (users : List UserRow) (logs : List LogRow) :
    (get_user_stats users logs).total_downloads =
      logs.countP (fun r => r.action == "download") ∧
    (get_user_stats users logs).top_users.length ≤ 5 ∧
    (get_user_stats users logs).top_users.Pairwise (fun a b => b.2 ≤ a.2) ∧
    ∀ p ∈ (get_user_stats users logs).top_users,
      ∃ u ∈ users, p.1 = u.username ∧
        p.2 = logs.countP (fun r =>
          r.user_id == u.user_id && r.action == "download" && r.status == "completed") ∧
        0 < p.2 := by
  refine ⟨rfl, List.length_take_le _ _, ?_, ?_⟩
  · exact List.Pairwise.sublist (List.take_sublist 5 _) (orderByDesc_pairwise _ _)
  · intro p hp
    simp only [get_user_stats] at hp
    have hp2 := (List.take_sublist 5 _).subset hp
    rw [orderByDesc_mem] at hp2
    obtain ⟨u, hu, hf⟩ := List.mem_filterMap.mp hp2
    by_cases hc : 0 < logs.countP (fun r =>
        r.user_id == u.user_id && r.action == "download" && r.status == "completed")
    · rw [if_pos hc] at hf
      injection hf with hf
      subst hf
      exact ⟨u, hu, rfl, rfl, hc⟩
    · rw [if_neg hc] at hf
      exact absurd hf (by simp)

/-! ### URL matcher lemmas -/

theorem dropPre_append (p r : List Char) : dropPre p (p ++ r) = some r := by
  induction p with
  | nil => rfl
  | cons c cs ih => simp [dropPre, ih]

theorem dropPre_some_eq (p : List Char) :
    ∀ s r : List Char, dropPre p s = some r → s = p ++ r := by
  induction p with
  | nil =>
    intro s r h
    simp [dropPre] at h
    simp [h]
  | cons c cs ih =>
    intro s r h
    cases s with
    | nil => simp [dropPre] at h
    | cons d ds =>
      rw [dropPre] at h
      by_cases hcd : c == d
      · rw [if_pos hcd] at h
        have := ih ds r h
        simp [List.cons_append, ← this, (beq_iff_eq).mp hcd]
      · rw [if_neg hcd] at h
        exact absurd h (by simp)

example (r : List Char) : stripScheme (schemeHttps ++ r) = r := by
  simp [stripScheme, dropPre_append]

example (r : List Char) : stripScheme (schemeHttp ++ r) = r := by
  simp [stripScheme, schemeHttps, schemeHttp, dropPre, dropPre_append]

example (r : List Char) : stripScheme (wwwChars ++ r) = wwwChars ++ r := by
  simp [stripScheme, schemeHttps, schemeHttp, wwwChars, dropPre]

example (r : List Char) : stripScheme (host1Chars ++ r) = host1Chars ++ r := by
  simp [stripScheme, schemeHttps, schemeHttp, host1Chars, dropPre]

example (r : List Char) : matchHost (host2Chars ++ r) = some r := by
  simp [matchHost, host1Chars, host2Chars, dropPre, dropPre_append]

theorem stripScheme_eq_of_https (s r : List Char) (h : dropPre schemeHttps s = some r) :
    stripScheme s = r := by
  simp [stripScheme, h]

theorem stripScheme_eq_of_http (s r : List Char) (h1 : dropPre schemeHttps s = none)
    (h2 : dropPre schemeHttp s = some r) : stripScheme s = r := by
  simp [stripScheme, h1, h2]

theorem stripScheme_eq_id (s : List Char) (h1 : dropPre schemeHttps s = none)
    (h2 : dropPre schemeHttp s = none) : stripScheme s = s := by
  simp [stripScheme, h1, h2]

theorem stripWww_eq_of_www (s r : List Char) (h : dropPre wwwChars s = some r) :
    stripWww s = r := by
  simp [stripWww, h]

theorem stripWww_eq_id (s : List Char) (h : dropPre wwwChars s = none) :
    stripWww s = s := by
  simp [stripWww, h]

theorem stripScheme_decomp (s : List Char) :
    ∃ sch : List Char, (sch = [] ∨ sch = schemeHttp ∨ sch = schemeHttps) ∧
      s = sch ++ stripScheme s := by
  cases h1 : dropPre schemeHttps s with
  | some r =>
    exact ⟨schemeHttps, Or.inr (Or.inr rfl), by
      rw [stripScheme_eq_of_https s r h1]
      exact dropPre_some_eq _ _ _ h1⟩
  | none =>
    cases h2 : dropPre schemeHttp s with
    | some r =>
      exact ⟨schemeHttp, Or.inr (Or.inl rfl), by
        rw [stripScheme_eq_of_http s r h1 h2]
        exact dropPre_some_eq _ _ _ h2⟩
    | none =>
      exact ⟨[], Or.inl rfl, by rw [stripScheme_eq_id s h1 h2]; simp⟩

theorem stripWww_decomp (s : List Char) :
    ∃ ww : List Char, (ww = [] ∨ ww = wwwChars) ∧ s = ww ++ stripWww s := by
  cases h1 : dropPre wwwChars s with
  | some r =>
    exact ⟨wwwChars, Or.inr rfl, by
      rw [stripWww_eq_of_www s r h1]
      exact dropPre_some_eq _ _ _ h1⟩
  | none =>
    exact ⟨[], Or.inl rfl, by rw [stripWww_eq_id s h1]; simp⟩

theorem matchHost_some (s r : List Char) (h : matchHost s = some r) :
    s = host1Chars ++ r ∨ s = host2Chars ++ r := by
  rw [matchHost] at h
  cases h1 : dropPre host1Chars s with
  | some r1 =>
    rw [h1] at h
    injection h with h
    subst h
    exact Or.inl (dropPre_some_eq _ _ _ h1)
  | none =>
    rw [h1] at h
    exact Or.inr (dropPre_some_eq _ _ _ h)

theorem stripScheme_https_pre (r : List Char) : stripScheme (schemeHttps ++ r) = r := by
  simp [stripScheme, dropPre_append]

theorem stripScheme_http_pre (r : List Char) : stripScheme (schemeHttp ++ r) = r := by
  simp [stripScheme, schemeHttps, schemeHttp, dropPre, dropPre_append]

theorem stripScheme_www_pre (r : List Char) :
    stripScheme (wwwChars ++ r) = wwwChars ++ r := by
  simp [stripScheme, schemeHttps, schemeHttp, wwwChars, dropPre]

theorem stripScheme_host1_pre (r : List Char) :
    stripScheme (host1Chars ++ r) = host1Chars ++ r := by
  simp [stripScheme, schemeHttps, schemeHttp, host1Chars, dropPre]

theorem stripScheme_host2_pre (r : List Char) :
    stripScheme (host2Chars ++ r) = host2Chars ++ r := by
  simp [stripScheme, schemeHttps, schemeHttp, host2Chars, dropPre]

theorem stripWww_www_pre (r : List Char) : stripWww (wwwChars ++ r) = r := by
  simp [stripWww, dropPre_append]

theorem stripWww_host1_pre (r : List Char) :
    stripWww (host1Chars ++ r) = host1Chars ++ r := by
  simp [stripWww, wwwChars, host1Chars, dropPre]

theorem stripWww_host2_pre (r : List Char) :
    stripWww (host2Chars ++ r) = host2Chars ++ r := by
  simp [stripWww, wwwChars, host2Chars, dropPre]

theorem matchHost_host1_pre (r : List Char) : matchHost (host1Chars ++ r) = some r := by
  simp [matchHost, dropPre_append]

theorem matchHost_host2_pre (r : List Char) : matchHost (host2Chars ++ r) = some r := by
  simp [matchHost, host1Chars, host2Chars, dropPre, dropPre_append]

theorem isValid_decomp (s : List Char) (h : isValidChars s = true) :
    ∃ (sch ww hst : List Char) (c : Char) (rest : List Char),
      (sch = [] ∨ sch = schemeHttp ∨ sch = schemeHttps) ∧
      (ww = [] ∨ ww = wwwChars) ∧
      (hst = host1Chars ∨ hst = host2Chars) ∧
      idChar c = true ∧ s = sch ++ (ww ++ (hst ++ (c :: rest))) := by
  rw [isValidChars] at h
  cases hm : matchHost (stripWww (stripScheme s)) with
  | none => rw [hm] at h; exact absurd h (by simp)
  | some g =>
    cases g with
    | nil => rw [hm] at h; exact absurd h (by simp)
    | cons c rest =>
      rw [hm] at h
      obtain ⟨sch, hsch, hs1⟩ := stripScheme_decomp s
      obtain ⟨ww, hww, hs2⟩ := stripWww_decomp (stripScheme s)
      rcases matchHost_some _ _ hm with hh | hh
      · exact ⟨sch, ww, host1Chars, c, rest, hsch, hww, Or.inl rfl, h, by
          rw [hs1, hs2, hh]⟩
      · exact ⟨sch, ww, host2Chars, c, rest, hsch, hww, Or.inr rfl, h, by
          rw [hs1, hs2, hh]⟩

theorem specCanonical_intro (sch ww hst id : List Char)
    (hsch : sch = [] ∨ sch = schemeHttp ∨ sch = schemeHttps)
    (hww : ww = [] ∨ ww = wwwChars)
    (hh : hst = host1Chars ∨ hst = host2Chars)
    (hid : id ≠ []) (hall : ∀ c ∈ id, idChar c = true) :
    specCanonicalYoutubeUrl (sch ++ (ww ++ (hst ++ id))) = true := by
  rw [specCanonicalYoutubeUrl, List.any_eq_true]
  refine ⟨sch, by rcases hsch with rfl | rfl | rfl <;> simp, ?_⟩
  rw [List.any_eq_true]
  refine ⟨ww, by rcases hww with rfl | rfl <;> simp, ?_⟩
  rw [List.any_eq_true]
  refine ⟨hst, by rcases hh with rfl | rfl <;> simp, ?_⟩
  have hd : dropPre (sch ++ ww ++ hst) (sch ++ (ww ++ (hst ++ id))) = some id := by
    have := dropPre_append (sch ++ ww ++ hst) id
    simpa [List.append_assoc] using this
  rw [hd]
  cases id with
  | nil => exact absurd rfl hid
  | cons c cs =>
    simp only [List.isEmpty_cons, Bool.not_false, Bool.true_and, List.all_eq_true]
    exact hall

theorem specCanonical_elim (p : List Char) (h : specCanonicalYoutubeUrl p = true) :
    ∃ sch ww hst id : List Char,
      (sch = [] ∨ sch = schemeHttp ∨ sch = schemeHttps) ∧
      (ww = [] ∨ ww = wwwChars) ∧
      (hst = host1Chars ∨ hst = host2Chars) ∧
      id ≠ [] ∧ (∀ c ∈ id, idChar c = true) ∧ p = sch ++ (ww ++ (hst ++ id)) := by
  rw [specCanonicalYoutubeUrl, List.any_eq_true] at h
  obtain ⟨sch, hsmem, h⟩ := h
  rw [List.any_eq_true] at h
  obtain ⟨ww, hwmem, h⟩ := h
  rw [List.any_eq_true] at h
  obtain ⟨hst, hhmem, h⟩ := h
  cases hd : dropPre (sch ++ ww ++ hst) p with
  | none => rw [hd] at h; exact absurd h (by simp)
  | some id =>
    rw [hd] at h
    have hp := dropPre_some_eq _ _ _ hd
    refine ⟨sch, ww, hst, id, ?_, ?_, ?_, ?_, ?_, by rw [hp]; simp [List.append_assoc]⟩
    · simpa using hsmem
    · simpa using hwmem
    · simpa using hhmem
    · intro e
      rw [e] at h
      exact absurd h (by simp)
    · rw [Bool.and_eq_true, List.all_eq_true] at h
      exact h.2

theorem isValid_of_canonical_prefix (sch ww hst id q s : List Char)
    (hs : s = sch ++ (ww ++ (hst ++ (id ++ q))))
    (hsch : sch = [] ∨ sch = schemeHttp ∨ sch = schemeHttps)
    (hww : ww = [] ∨ ww = wwwChars)
    (hh : hst = host1Chars ∨ hst = host2Chars)
    (hid : id ≠ []) (hall : ∀ c ∈ id, idChar c = true) :
    isValidChars s = true := by
  have h1 : stripScheme s = ww ++ (hst ++ (id ++ q)) := by
    rcases hsch with rfl | rfl | rfl
    · rw [hs, List.nil_append]
      rcases hww with rfl | rfl
      · rw [List.nil_append]
        rcases hh with rfl | rfl
        · exact stripScheme_host1_pre _
        · exact stripScheme_host2_pre _
      · exact stripScheme_www_pre _
    · rw [hs]; exact stripScheme_http_pre _
    · rw [hs]; exact stripScheme_https_pre _
  have h2 : stripWww (stripScheme s) = hst ++ (id ++ q) := by
    rw [h1]
    rcases hww with rfl | rfl
    · rw [List.nil_append]
      rcases hh with rfl | rfl
      · exact stripWww_host1_pre _
      · exact stripWww_host2_pre _
    · exact stripWww_www_pre _
  have h3 : matchHost (stripWww (stripScheme s)) = some (id ++ q) := by
    rw [h2]
    rcases hh with rfl | rfl
    · exact matchHost_host1_pre _
    · exact matchHost_host2_pre _
  cases id with
  | nil => exact absurd rfl hid
  | cons c cs =>
    rw [isValidChars, List.cons_append] at *
    rw [h3]
    exact hall c (List.mem_cons_self c cs)

/-- C9 counterexample: `youtu.be/a!` is accepted by the validator although
it is not one of the two canonical URL shapes (the `!` is outside the id
character class) — `re.match` only anchors at the start, so trailing
characters are never examined. -/
theorem claim_C9_cex :
    is_valid_youtube_url "youtu.be/a!" = true ∧
    specCanonicalYoutubeUrl "youtu.be/a!".data = false :=
  ⟨by decide, by decide⟩

/-- C9 amended: the validator accepts exactly the strings that begin with
one of the two canonical host patterns (optional scheme, optional `www.`,
host, at least one id character); anything may follow the matched prefix,
so strings with trailing junk are accepted too. -/
theorem claim_C9_amended (url : String) :
    is_valid_youtube_url url = true ↔
      ∃ p q : List Char, url.data = p ++ q ∧ specCanonicalYoutubeUrl p = true := by
  rw [is_valid_youtube_url]
  constructor
  · intro h
    obtain ⟨sch, ww, hst, c, rest, hsch, hww, hh, hc, hs⟩ := isValid_decomp _ h
    refine ⟨sch ++ (ww ++ (hst ++ [c])), rest, ?_, ?_⟩
    · rw [hs]
      simp [List.append_assoc]
    · exact specCanonical_intro sch ww hst [c] hsch hww hh (by simp)
        (by intro x hx; rw [List.mem_singleton.mp hx]; exact hc)
  · intro ⟨p, q, hdata, hspec⟩
    obtain ⟨sch, ww, hst, id, hsch, hww, hh, hid, hall, hp⟩ := specCanonical_elim p hspec
    refine isValid_of_canonical_prefix sch ww hst id q url.data ?_ hsch hww hh hid hall
    rw [hdata, hp]
    simp [List.append_assoc]

theorem takeId_ne_nil (s g : List Char) (h : takeId s = some g) : g ≠ [] := by
  cases s with
  | nil => exact absurd h (by simp [takeId])
  | cons c cs =>
    rw [takeId] at h
    by_cases hc : idChar c
    · rw [if_pos hc] at h
      injection h with h
      rw [← h]
      simp
    · rw [if_neg hc] at h
      exact absurd h (by simp)

theorem matchP1At_ne_nil (s g : List Char) (h : matchP1At s = some g) : g ≠ [] := by
  rw [matchP1At] at h
  cases h1 : dropPre host1Chars (stripWww (stripScheme s)) with
  | none => rw [h1] at h; exact absurd h (by simp)
  | some r =>
    rw [h1] at h
    exact takeId_ne_nil r g h

theorem matchP2At_ne_nil (s g : List Char) (h : matchP2At s = some g) : g ≠ [] := by
  rw [matchP2At] at h
  cases h1 : dropPre host2Chars (stripWww (stripScheme s)) with
  | none => rw [h1] at h; exact absurd h (by simp)
  | some r =>
    rw [h1] at h
    exact takeId_ne_nil r g h

theorem searchP1_ne_nil (s g : List Char) (h : searchP1 s = some g) : g ≠ [] := by
  induction s with
  | nil => exact absurd h (by simp [searchP1])
  | cons c cs ih =>
    rw [searchP1] at h
    cases h1 : matchP1At (c :: cs) with
    | some g1 =>
      rw [h1] at h
      injection h with h
      subst h
      exact matchP1At_ne_nil _ _ h1
    | none =>
      rw [h1] at h
      exact ih h

theorem searchP2_ne_nil (s g : List Char) (h : searchP2 s = some g) : g ≠ [] := by
  induction s with
  | nil => exact absurd h (by simp [searchP2])
  | cons c cs ih =>
    rw [searchP2] at h
    cases h1 : matchP2At (c :: cs) with
    | some g1 =>
      rw [h1] at h
      injection h with h
      subst h
      exact matchP2At_ne_nil _ _ h1
    | none =>
      rw [h1] at h
      exact ih h

theorem isValid_match (s : List Char) (h : isValidChars s = true) :
    (∃ g, matchP1At s = some g) ∨ (∃ g, matchP2At s = some g) := by
  rw [isValidChars] at h
  cases hm : matchHost (stripWww (stripScheme s)) with
  | none => rw [hm] at h; exact absurd h (by simp)
  | some g =>
    cases g with
    | nil => rw [hm] at h; exact absurd h (by simp)
    | cons c rest =>
      rw [hm] at h
      have hc : idChar c = true := h
      cases h1 : dropPre host1Chars (stripWww (stripScheme s)) with
      | some r =>
        simp only [matchHost, h1, Option.some.injEq] at hm
        left
        refine ⟨c :: rest.takeWhile idChar, ?_⟩
        simp [matchP1At, h1, hm, takeId, hc]
      | none =>
        simp only [matchHost, h1] at hm
        right
        refine ⟨c :: rest.takeWhile idChar, ?_⟩
        simp [matchP2At, hm, takeId, hc]

/-- C10: every URL accepted by the validator yields a non-empty video id
from the extractor — `extract_video_id` never returns `None` on a validated
URL, and the captured group has at least one character. -/
theorem claim_C10_extract_on_valid (url : String)
    (h : is_valid_youtube_url url = true) :
    ∃ g : String, extract_video_id url = some g ∧ g ≠ "" := by
  rw [is_valid_youtube_url] at h
  have hne : url.data ≠ [] := by
    intro e
    rw [e] at h
    exact absurd h (by decide)
  rcases isValid_match _ h with ⟨g, hg⟩ | ⟨g, hg⟩
  · cases hs : url.data with
    | nil => exact absurd hs hne
    | cons c cs =>
      rw [hs] at hg
      have hsearch : searchP1 url.data = some g := by
        rw [hs, searchP1, hg]
      refine ⟨⟨g⟩, by rw [extract_video_id, hsearch], ?_⟩
      have hg0 : g ≠ [] := matchP1At_ne_nil _ _ hg
      intro e
      exact hg0 (congrArg String.data e)
  · cases hsp1 : searchP1 url.data with
    | some g2 =>
      refine ⟨⟨g2⟩, by rw [extract_video_id, hsp1], ?_⟩
      have hg0 : g2 ≠ [] := searchP1_ne_nil _ _ hsp1
      intro e
      exact hg0 (congrArg String.data e)
    | none =>
      cases hs : url.data with
      | nil => exact absurd hs hne
      | cons c cs =>
        rw [hs] at hg
        have hsearch : searchP2 url.data = some g := by
          rw [hs, searchP2, hg]
        refine ⟨⟨g⟩, by rw [extract_video_id, hsp1, hsearch], ?_⟩
        have hg0 : g ≠ [] := matchP2At_ne_nil _ _ hg
        intro e
        exact hg0 (congrArg String.data e)

/-- C10 witness at a concrete accepted URL. -/
theorem claim_C10_witness :
    is_valid_youtube_url "https://youtu.be/abc" = true ∧
    ∃ g : String, extract_video_id "https://youtu.be/abc" = some g ∧ g ≠ "" :=
  ⟨by decide, claim_C10_extract_on_valid _ (by decide)⟩

/-- C8 amended witness at a concrete pair of tables. -/
theorem claim_C8_amended_witness :
    (get_user_stats [⟨1, "alice"⟩]
        [⟨1, "download", "http://u", "", 0, "completed", ""⟩]).total_downloads =
      ([⟨1, "download", "http://u", "", 0, "completed", ""⟩] : List LogRow).countP
        (fun r => r.action == "download") ∧
    (get_user_stats [⟨1, "alice"⟩]
        [⟨1, "download", "http://u", "", 0, "completed", ""⟩]).top_users.length ≤ 5 ∧
    (get_user_stats [⟨1, "alice"⟩]
        [⟨1, "download", "http://u", "", 0, "completed", ""⟩]).top_users.Pairwise
      (fun a b => b.2 ≤ a.2) ∧
    ∀ p ∈ (get_user_stats [⟨1, "alice"⟩]
        [⟨1, "download", "http://u", "", 0, "completed", ""⟩]).top_users,
      ∃ u ∈ ([⟨1, "alice"⟩] : List UserRow), p.1 = u.username ∧
        p.2 = ([⟨1, "download", "http://u", "", 0, "completed", ""⟩] : List LogRow).countP
          (fun r =>
            r.user_id == u.user_id && r.action == "download" && r.status == "completed") ∧
        0 < p.2 :=
  claim_C8_amended [⟨1, "alice"⟩] [⟨1, "download", "http://u", "", 0, "completed", ""⟩]

/-- C9 amended witness at a concrete URL. -/
theorem claim_C9_amended_witness :
    is_valid_youtube_url "youtu.be/xyz" = true ↔
      ∃ p q : List Char, "youtu.be/xyz".data = p ++ q ∧
        specCanonicalYoutubeUrl p = true :=
  claim_C9_amended "youtu.be/xyz"
